import Mathlib

/-!
Shallow embedding of the cost-ledger currency core
(src/libs/idb.module.js and vanilla-test/idb.js).

JavaScript numbers are modelled as exact values: an IEEE double is either a
finite value (idealised as a rational, so no representation error), NaN, or a
signed infinity.  IEEE negative zero is not distinguished from zero (the code
under verification never produces a negative zero on the paths we model).
JavaScript values are numbers, strings, booleans, null, undefined, or plain
objects, the latter modelled as association lists of string keys in insertion
order, the order and first-match lookup mirroring JS object semantics.
-/

/-- A JavaScript number: finite (idealised as a rational), NaN, or infinity. -/
inductive JSNum where
  | fin (q : ℚ)
  | nan
  | inf
  | neginf
deriving DecidableEq, Repr

namespace JSNum

/-- JS isFinite on a number. -/
def isFinite : JSNum → Bool
  | .fin _ => true
  | _ => false

/-- JS addition on numbers. -/
def add : JSNum → JSNum → JSNum
  | .fin a, .fin b => .fin (a + b)
  | .nan, _ => .nan
  | _, .nan => .nan
  | .inf, .neginf => .nan
  | .neginf, .inf => .nan
  | .inf, _ => .inf
  | _, .inf => .inf
  | .neginf, _ => .neginf
  | _, .neginf => .neginf

/-- JS multiplication on numbers. -/
def mul : JSNum → JSNum → JSNum
  | .fin a, .fin b => .fin (a * b)
  | .nan, _ => .nan
  | _, .nan => .nan
  | .inf, .inf => .inf
  | .inf, .neginf => .neginf
  | .neginf, .inf => .neginf
  | .neginf, .neginf => .inf
  | .inf, .fin b => if 0 < b then .inf else if b < 0 then .neginf else .nan
  | .fin a, .inf => if 0 < a then .inf else if a < 0 then .neginf else .nan
  | .neginf, .fin b => if 0 < b then .neginf else if b < 0 then .inf else .nan
  | .fin a, .neginf => if 0 < a then .neginf else if a < 0 then .inf else .nan

/-- JS division on numbers (division of a nonzero value by zero overflows to
a signed infinity; zero by zero is NaN). -/
def div : JSNum → JSNum → JSNum
  | .fin a, .fin b =>
      if b ≠ 0 then .fin (a / b)
      else if 0 < a then .inf else if a < 0 then .neginf else .nan
  | .nan, _ => .nan
  | _, .nan => .nan
  | .fin _, .inf => .fin 0
  | .fin _, .neginf => .fin 0
  | .inf, .fin b => if 0 ≤ b then .inf else .neginf
  | .neginf, .fin b => if 0 ≤ b then .neginf else .inf
  | .inf, .inf => .nan
  | .inf, .neginf => .nan
  | .neginf, .inf => .nan
  | .neginf, .neginf => .nan

end JSNum

/-- Number.EPSILON, the exact value 2 to the power minus 52. -/
def epsQ : ℚ := 1 / 2 ^ 52

/-- Math.round on a finite value: round half toward positive infinity. -/
def jsRound (q : ℚ) : ℤ := ⌊q + 1 / 2⌋

/-- The rounding used by convert on a finite value:
Math.round((value + Number.EPSILON) * 100) / 100. -/
def roundQ (q : ℚ) : ℚ := (jsRound ((q + epsQ) * 100) : ℚ) / 100

/-- The rounding used on report totals: Math.round(x * 100) / 100. -/
def roundQ0 (q : ℚ) : ℚ := (jsRound (q * 100) : ℚ) / 100

/-- Math.round((value + Number.EPSILON) * 100) / 100 lifted to JS numbers
(NaN and infinities pass through unchanged, as in JS). -/
def JSNum.roundTwo : JSNum → JSNum
  | .fin q => .fin (roundQ q)
  | n => n

/-- Math.round(x * 100) / 100 lifted to JS numbers. -/
def JSNum.roundHund : JSNum → JSNum
  | .fin q => .fin (roundQ0 q)
  | n => n

/-- A JavaScript value, as far as the data layer observes one. -/
inductive JSVal where
  | num (n : JSNum)
  | str (s : String)
  | bool (b : Bool)
  | null
  | undefined
  | obj (fields : List (String × JSVal))
deriving Repr

/-- First-match lookup of a key among the fields of an object. -/
def lookupField : List (String × JSVal) → String → Option JSVal
  | [], _ => none
  | (k, v) :: rest, key => if k = key then some v else lookupField rest key

/-- JS property assignment: overwrite the entry in place if the key exists,
append it otherwise. -/
def setField : List (String × JSVal) → String → JSVal → List (String × JSVal)
  | [], k, v => [(k, v)]
  | (k0, v0) :: rest, k, v =>
      if k0 = k then (k, v) :: rest else (k0, v0) :: setField rest k v

/-- The JS delete operator: remove the entry for a key. -/
def deleteField : List (String × JSVal) → String → List (String × JSVal)
  | [], _ => []
  | (k0, v0) :: rest, k => if k0 = k then rest else (k0, v0) :: deleteField rest k

/-- Property read: obj[key], yielding undefined for a missing key or a
non-object receiver. -/
def jsGetMember : JSVal → String → JSVal
  | .obj fields, key => (lookupField fields key).getD .undefined
  | _, _ => .undefined

/-- The JS loose comparison v == null, true exactly for null and undefined. -/
def isNullish : JSVal → Bool
  | .null => true
  | .undefined => true
  | _ => false

/-- JS truthiness of a value. -/
def truthy : JSVal → Bool
  | .num (.fin q) => decide (q ≠ 0)
  | .num .nan => false
  | .num .inf => true
  | .num .neginf => true
  | .str s => decide (s ≠ "")
  | .bool b => b
  | .null => false
  | .undefined => false
  | .obj _ => true

/-- Whether typeof v is the string "object" and v is truthy, i.e. v is a
non-null object. -/
def isObjectVal : JSVal → Bool
  | .obj _ => true
  | _ => false

/-- Decimal digits of a character list folded into a natural number. -/
def digitsToNat (cs : List Char) : Nat :=
  cs.foldl (fun a c => a * 10 + (c.toNat - 48)) 0

/-- Parse an unsigned decimal literal (digits, optionally with a decimal
point), as accepted by the JS Number(string) coercion. -/
def parseUnsignedDec (cs : List Char) : Option ℚ :=
  match cs.span Char.isDigit with
  | (intPart, rest) =>
    match rest with
    | [] => if intPart = [] then none else some (digitsToNat intPart : ℚ)
    | '.' :: frac =>
      if frac.all Char.isDigit ∧ (intPart ≠ [] ∨ frac ≠ [])
      then some ((digitsToNat intPart : ℚ) + (digitsToNat frac : ℚ) / (10 ^ frac.length))
      else none
    | _ => none

/-- Parse an optionally signed decimal literal. -/
def parseSignedDec (cs : List Char) : Option ℚ :=
  match cs with
  | '-' :: rest => (parseUnsignedDec rest).map Neg.neg
  | '+' :: rest => parseUnsignedDec rest
  | _ => parseUnsignedDec cs

/-- String.prototype.toUpperCase, character by character (the currency codes
and keys in play are ASCII). -/
def jsUpper (s : String) : String := ⟨s.data.map Char.toUpper⟩

/-- String.prototype.trim: strip leading and trailing whitespace. -/
def jsTrim (s : String) : String :=
  ⟨((s.data.dropWhile Char.isWhitespace).reverse.dropWhile Char.isWhitespace).reverse⟩

/-- The JS Number(string) coercion for the literal forms this codebase can
meet: whitespace-trimmed plain decimal (optionally signed, optional decimal
point), the empty string (0), and the Infinity spellings; anything else
(including exponent/hex forms, which no input here uses) is NaN. -/
def parseNumberString (s : String) : JSNum :=
  let t := jsTrim s
  if t = "" then .fin 0
  else if t = "Infinity" ∨ t = "+Infinity" then .inf
  else if t = "-Infinity" then .neginf
  else
    match parseSignedDec t.data with
    | some q => .fin q
    | none => .nan

/-- The JS Number(v) coercion. A plain object converts through its default
string form "[object Object]", which is not numeric, hence NaN. -/
def toNumber : JSVal → JSNum
  | .num n => n
  | .str s => parseNumberString s
  | .bool b => .fin (if b then 1 else 0)
  | .null => .fin 0
  | .undefined => .nan
  | .obj _ => .nan

/-- String form of a finite JS number; integral values print as in JS, and
non-integral values (never stringified by the code under verification) are
given an unambiguous fraction form. -/
def ratToJsString (q : ℚ) : String :=
  if q.den = 1 then toString q.num else toString q.num ++ "/" ++ toString q.den

/-- The JS String(v) coercion. -/
def jsToString : JSVal → String
  | .str s => s
  | .bool b => if b then "true" else "false"
  | .null => "null"
  | .undefined => "undefined"
  | .num (.fin q) => ratToJsString q
  | .num .nan => "NaN"
  | .num .inf => "Infinity"
  | .num .neginf => "-Infinity"
  | .obj _ => "[object Object]"

/-!
The currency normalizer and conversion engine, translated from
src/libs/idb.module.js (openCostsDB closure).
-/

/-- normalizeCurrency(c): falsy input defaults to "USD"; otherwise
String(c).toUpperCase().trim(), with the legacy alias "EURO" canonicalized
to "EUR". -/
def normalizeCurrency (c : JSVal) : String :=
  if ¬ truthy c then "USD"
  else
    let up := jsTrim (jsUpper (jsToString c))
    if up = "EURO" then "EUR" else up

/-- The EURO-to-EUR merge step of normalizeRatesObject, applied to the fields
of a flat map or of the rates sub-object: if m.EURO is non-null and m.EUR is
null/absent, then m.EUR = m.EURO and delete m.EURO; otherwise unchanged. -/
def mergeEuroAlias (fields : List (String × JSVal)) : List (String × JSVal) :=
  if ¬ isNullish (jsGetMember (.obj fields) "EURO")
      ∧ isNullish (jsGetMember (.obj fields) "EUR")
  then deleteField (setField fields "EUR" (jsGetMember (.obj fields) "EURO")) "EURO"
  else fields

/-- The wrapped branch of normalizeRatesObject: copy the object with the EURO
merge applied inside the rates member, then canonicalize a base whose
uppercased string form is "EURO" to "EUR". -/
def normalizeWrapped (fields ratesFields : List (String × JSVal)) :
    List (String × JSVal) :=
  if truthy (jsGetMember
        (.obj (setField fields "rates" (.obj (mergeEuroAlias ratesFields)))) "base")
      ∧ jsUpper (jsToString (jsGetMember
        (.obj (setField fields "rates" (.obj (mergeEuroAlias ratesFields)))) "base")) = "EURO"
  then setField (setField fields "rates" (.obj (mergeEuroAlias ratesFields))) "base"
        (.str "EUR")
  else setField fields "rates" (.obj (mergeEuroAlias ratesFields))

/-- normalizeRatesObject(obj): non-objects (and null) are returned unchanged;
a wrapped table (one whose rates member is a non-null object) gets the EURO
merge applied inside rates and its base canonicalized from "EURO" to "EUR";
a flat map gets the EURO merge applied to its own keys. -/
def normalizeRatesObject (o : JSVal) : JSVal :=
  match o with
  | .obj fields =>
      match lookupField fields "rates" with
      | some (.obj ratesFields) => .obj (normalizeWrapped fields ratesFields)
      | _ => .obj (mergeEuroAlias fields)
  | _ => o

/-- Whether an object (given by its fields) is treated as a flat table by the
shape detection, i.e. its rates member is not a non-null object. -/
def isFlatFields (fields : List (String × JSVal)) : Bool :=
  match lookupField fields "rates" with
  | some (.obj _) => false
  | _ => true

/-- (rates.base || "USD").toUpperCase() in the wrapped branch of convert.
A truthy non-string base has no toUpperCase method, so the call would throw;
that case is modelled as none. -/
def wrappedBase (rates : JSVal) : Option String :=
  let b := if truthy (jsGetMember rates "base") then jsGetMember rates "base"
           else .str "USD"
  match b with
  | .str s => some (jsUpper s)
  | _ => none

/-- The local get(k) of the flat branch of convert: the stored entry when it
is non-null, the legacy EURO entry when k is "EUR" and EUR is absent, and
NaN otherwise. -/
def flatGet (table : JSVal) (k : String) : JSNum :=
  if ¬ isNullish (jsGetMember table k) then toNumber (jsGetMember table k)
  else if k = "EUR" ∧ ¬ isNullish (jsGetMember table "EURO")
  then toNumber (jsGetMember table "EURO")
  else .nan

/-- The per-code rate lookup convert performs, by table shape: in the wrapped
shape, 1 for the base code and Number(rates.rates[code]) otherwise (none when
reading the base would throw); in the flat shape, get(code). -/
def convRate1 (rates : JSVal) (code : String) : Option JSNum :=
  match jsGetMember rates "rates" with
  | .obj tbl =>
      (wrappedBase rates).map fun base =>
        if code = base then .fin 1 else toNumber (jsGetMember (.obj tbl) code)
  | _ => some (flatGet rates code)

/-- convert(amount, from, to, rates): returns amount when amount is not
finite or rates is falsy; otherwise looks up both rates in the detected
shape, returns amount when either is not finite, and otherwise returns
Math.round((amount * (rTo / rFrom) + Number.EPSILON) * 100) / 100.
The none result is the TypeError thrown when a wrapped table carries a
truthy non-string base. -/
def convert (amount : JSNum) (fromC toC rates : JSVal) : Option JSNum :=
  if ¬ amount.isFinite ∨ ¬ truthy rates then some amount
  else
    match convRate1 rates (normalizeCurrency fromC),
          convRate1 rates (normalizeCurrency toC) with
    | some rFrom, some rTo =>
        if ¬ rFrom.isFinite ∨ ¬ rTo.isFinite then some amount
        else some (JSNum.roundTwo (amount.mul (rTo.div rFrom)))
    | _, _ => none

/-!
The costs API: addCost validation and the pure aggregation core of getReport,
plus both setRates variants (module and vanilla-test).
-/

/-- The write-confirmation shape addCost resolves with. -/
structure AddCostResult where
  sum : JSNum
  currency : String
  category : String
  description : String
deriving Repr

/-- JS a || b applied to values. -/
def jsOr (a b : JSVal) : JSVal := if truthy a then a else b

/-- addCost(cost): builds the record fields (sum coerced by Number, currency
normalized with the curency-typo fallback and USD default, category and
description stringified with defaults) and throws when the coerced sum is not
finite; date stamping and the store write are environment effects outside
this pure core.  The resolved value echoes the four semantic fields. -/
def addCost (cost : JSVal) : Except String AddCostResult :=
  let sum := toNumber (jsGetMember cost "sum")
  let currency := normalizeCurrency
    (jsOr (jsGetMember cost "currency") (jsOr (jsGetMember cost "curency") (.str "USD")))
  let category := jsToString (jsOr (jsGetMember cost "category") (.str "General"))
  let description := jsToString (jsOr (jsGetMember cost "description") (.str ""))
  if ¬ sum.isFinite then .error "sum must be a number"
  else .ok ⟨sum, currency, category, description⟩

/-- setRates of src/libs/idb.module.js: no validation at all; the stored
snapshot carries the normalized table, whatever the input was. -/
def setRates (rates : JSVal) : Except String JSVal :=
  .ok (normalizeRatesObject rates)

/-- setRates of vanilla-test/idb.js: rejects a falsy or non-object input with
"rates must be an object", and otherwise stores the normalized table (values
are not validated). -/
def setRatesVanilla (ratesObj : JSVal) : Except String JSVal :=
  if ¬ truthy ratesObj ∨ ¬ isObjectVal ratesObj
  then .error "rates must be an object"
  else .ok (normalizeRatesObject ratesObj)

/-- A stored cost record, as far as getReport reads one back. -/
structure CostRec where
  sum : JSNum
  currency : JSVal
  year : Int
  month : Int

/-- The per-item step of the getReport total: convert through the snapshot
when rates is truthy, and use the raw sum otherwise. -/
def convertOrRaw (rates : JSVal) (cur : String) (it : CostRec) : Option JSNum :=
  if truthy rates then convert it.sum it.currency (.str cur) rates else some it.sum

/-- The pure aggregation core of getReport(year, month, currency): recs plays
the costs store, the filter is the by_year_month equality range, rates is
what ensureRates returned (null when no snapshot was ever stored).  Produces
the total object pair (currency, Math.round(totalNum * 100) / 100); none is
a propagated conversion throw. -/
def getReportTotal (year month : Int) (currency : JSVal)
    (recs : List CostRec) (rates : JSVal) : Option (String × JSNum) :=
  let cur := normalizeCurrency (jsOr currency (.str "USD"))
  let items := recs.filter fun r => r.year == year && r.month == month
  let totalNum := items.foldl
    (fun (acc : Option JSNum) it =>
      acc.bind fun a => (convertOrRaw rates cur it).map fun c => a.add c)
    (some (.fin 0))
  totalNum.map fun t => (cur, t.roundHund)

/-!
Association-list facts about the object operations, used to reason about the
normalizer.
-/

theorem lookupField_setField_self : ∀ (l : List (String × JSVal)) (k : String) (v : JSVal),
    lookupField (setField l k v) k = some v
  | [], k, v => by simp [setField, lookupField]
  | (k0, v0) :: rest, k, v => by
    by_cases h : k0 = k
    · simp [setField, h, lookupField]
    · simp [setField, h, lookupField, lookupField_setField_self rest k v]

theorem lookupField_setField_ne : ∀ (l : List (String × JSVal)) (k k0 : String) (v : JSVal),
    k0 ≠ k → lookupField (setField l k v) k0 = lookupField l k0
  | [], k, k0, v, h => by simp [setField, lookupField, Ne.symm h]
  | (k1, v1) :: rest, k, k0, v, h => by
    by_cases h1 : k1 = k
    · subst h1
      simp [setField, lookupField, Ne.symm h]
    · by_cases h0 : k1 = k0
      · simp [setField, h1, lookupField, h0, h]
      · simp [setField, h1, lookupField, h0, lookupField_setField_ne rest k k0 v h]

theorem lookupField_deleteField_ne : ∀ (l : List (String × JSVal)) (k k0 : String),
    k0 ≠ k → lookupField (deleteField l k) k0 = lookupField l k0
  | [], _, _, _ => rfl
  | (k1, v1) :: rest, k, k0, h => by
    by_cases h1 : k1 = k
    · subst h1
      simp [deleteField, lookupField, Ne.symm h]
    · by_cases h0 : k1 = k0
      · simp [deleteField, h1, lookupField, h0, h]
      · simp [deleteField, h1, lookupField, h0, lookupField_deleteField_ne rest k k0 h]

theorem setField_eq_of_lookup : ∀ (l : List (String × JSVal)) (k : String) (v : JSVal),
    lookupField l k = some v → setField l k v = l
  | [], k, v, h => by simp [lookupField] at h
  | (k1, v1) :: rest, k, v, h => by
    by_cases h1 : k1 = k
    · subst h1
      simp [lookupField] at h
      simp [setField, h]
    · simp [lookupField, h1] at h
      simp [setField, h1, setField_eq_of_lookup rest k v h]

/-!
Behaviour of the EURO merge and idempotence of the normalizer.
-/

theorem mergeEuroAlias_of_EUR (fields : List (String × JSVal))
    (h : isNullish (jsGetMember (.obj fields) "EUR") = false) :
    mergeEuroAlias fields = fields := by
  rw [mergeEuroAlias, if_neg]
  rintro ⟨-, h2⟩
  rw [h] at h2
  exact Bool.false_ne_true h2

theorem lookupField_mergeEuroAlias_ne (fields : List (String × JSVal)) (k : String)
    (h1 : k ≠ "EUR") (h2 : k ≠ "EURO") :
    lookupField (mergeEuroAlias fields) k = lookupField fields k := by
  unfold mergeEuroAlias
  split
  · rw [lookupField_deleteField_ne _ _ _ h2, lookupField_setField_ne _ _ _ _ h1]
  · rfl

theorem mergeEuroAlias_idem (fields : List (String × JSVal)) :
    mergeEuroAlias (mergeEuroAlias fields) = mergeEuroAlias fields := by
  by_cases hc : (¬ isNullish (jsGetMember (.obj fields) "EURO") = true
      ∧ isNullish (jsGetMember (.obj fields) "EUR") = true)
  · have hm : mergeEuroAlias fields
        = deleteField (setField fields "EUR" (jsGetMember (.obj fields) "EURO")) "EURO" := by
      rw [mergeEuroAlias, if_pos hc]
    have hv : isNullish (jsGetMember (.obj fields) "EURO") = false := by
      cases hx : isNullish (jsGetMember (.obj fields) "EURO")
      · rfl
      · exact absurd hx hc.1
    have hlk : lookupField (mergeEuroAlias fields) "EUR"
        = some (jsGetMember (.obj fields) "EURO") := by
      rw [hm, lookupField_deleteField_ne _ _ _ (by decide), lookupField_setField_self]
    apply mergeEuroAlias_of_EUR
    have heq : jsGetMember (.obj (mergeEuroAlias fields)) "EUR"
        = jsGetMember (.obj fields) "EURO" := by
      simp [jsGetMember, hlk]
    rw [heq]
    exact hv
  · have hm : mergeEuroAlias fields = fields := by rw [mergeEuroAlias, if_neg hc]
    rw [hm]
    exact hm

theorem lookupField_normalizeWrapped_rates (fields rf : List (String × JSVal)) :
    lookupField (normalizeWrapped fields rf) "rates" = some (.obj (mergeEuroAlias rf)) := by
  unfold normalizeWrapped
  split
  · rw [lookupField_setField_ne _ _ _ _ (by decide), lookupField_setField_self]
  · exact lookupField_setField_self _ _ _

theorem normalizeWrapped_stable (fields rf : List (String × JSVal)) :
    normalizeWrapped (normalizeWrapped fields rf) (mergeEuroAlias rf)
      = normalizeWrapped fields rf := by
  have hset : setField (normalizeWrapped fields rf) "rates"
      (.obj (mergeEuroAlias (mergeEuroAlias rf))) = normalizeWrapped fields rf := by
    rw [mergeEuroAlias_idem]
    exact setField_eq_of_lookup _ _ _ (lookupField_normalizeWrapped_rates fields rf)
  have hcond : ¬ (truthy (jsGetMember (.obj (normalizeWrapped fields rf)) "base") = true
      ∧ jsUpper (jsToString (jsGetMember (.obj (normalizeWrapped fields rf)) "base"))
          = "EURO") := by
    by_cases hc : (truthy (jsGetMember
          (.obj (setField fields "rates" (.obj (mergeEuroAlias rf)))) "base") = true
        ∧ jsUpper (jsToString (jsGetMember
            (.obj (setField fields "rates" (.obj (mergeEuroAlias rf)))) "base"))
            = "EURO")
    · have h1 : normalizeWrapped fields rf
          = setField (setField fields "rates" (.obj (mergeEuroAlias rf))) "base"
              (.str "EUR") := by
        rw [normalizeWrapped, if_pos hc]
      have hb : jsGetMember (.obj (setField (setField fields "rates"
            (.obj (mergeEuroAlias rf))) "base" (.str "EUR"))) "base" = .str "EUR" := by
        simp [jsGetMember, lookupField_setField_self]
      rintro ⟨-, h2⟩
      rw [h1, hb] at h2
      exact absurd h2 (by decide)
    · have h1 : normalizeWrapped fields rf
          = setField fields "rates" (.obj (mergeEuroAlias rf)) := by
        rw [normalizeWrapped, if_neg hc]
      rw [h1]
      exact hc
  conv_lhs => rw [normalizeWrapped]
  rw [hset, if_neg hcond]

theorem normalizeRatesObject_flat (fields : List (String × JSVal))
    (h : isFlatFields fields = true) :
    normalizeRatesObject (.obj fields) = .obj (mergeEuroAlias fields) := by
  cases hrt : lookupField fields "rates" with
  | none => simp [normalizeRatesObject, hrt]
  | some v =>
      cases v with
      | obj rf =>
          exfalso
          unfold isFlatFields at h
          rw [hrt] at h
          simp at h
      | num n => simp [normalizeRatesObject, hrt]
      | str s => simp [normalizeRatesObject, hrt]
      | bool b => simp [normalizeRatesObject, hrt]
      | null => simp [normalizeRatesObject, hrt]
      | undefined => simp [normalizeRatesObject, hrt]

theorem isFlatFields_mergeEuroAlias (fields : List (String × JSVal))
    (h : isFlatFields fields = true) : isFlatFields (mergeEuroAlias fields) = true := by
  unfold isFlatFields at h ⊢
  rw [lookupField_mergeEuroAlias_ne _ _ (by decide) (by decide)]
  exact h

theorem normalizeRatesObject_idem_flat (fields : List (String × JSVal))
    (h : isFlatFields fields = true) :
    normalizeRatesObject (normalizeRatesObject (.obj fields))
      = normalizeRatesObject (.obj fields) := by
  rw [normalizeRatesObject_flat fields h,
      normalizeRatesObject_flat _ (isFlatFields_mergeEuroAlias fields h),
      mergeEuroAlias_idem]

/-- C6: normalizeRateTable is idempotent: for every input value x (flat or
wrapped shape, or any other JS value), applying normalizeRatesObject twice
gives the same result as applying it once. -/
theorem normalizeRates_idempotent (o : JSVal) :
    normalizeRatesObject (normalizeRatesObject o) = normalizeRatesObject o := by
  cases o with
  | obj fields =>
      cases hrt : lookupField fields "rates" with
      | some v =>
          cases v with
          | obj rf =>
              have h1 : normalizeRatesObject (.obj fields)
                  = .obj (normalizeWrapped fields rf) := by
                simp [normalizeRatesObject, hrt]
              have h2 : normalizeRatesObject (.obj (normalizeWrapped fields rf))
                  = .obj (normalizeWrapped (normalizeWrapped fields rf)
                      (mergeEuroAlias rf)) := by
                simp [normalizeRatesObject, lookupField_normalizeWrapped_rates]
              rw [h1, h2, normalizeWrapped_stable]
          | num n =>
              exact normalizeRatesObject_idem_flat fields (by unfold isFlatFields; rw [hrt])
          | str s =>
              exact normalizeRatesObject_idem_flat fields (by unfold isFlatFields; rw [hrt])
          | bool b =>
              exact normalizeRatesObject_idem_flat fields (by unfold isFlatFields; rw [hrt])
          | null =>
              exact normalizeRatesObject_idem_flat fields (by unfold isFlatFields; rw [hrt])
          | undefined =>
              exact normalizeRatesObject_idem_flat fields (by unfold isFlatFields; rw [hrt])
      | none =>
          exact normalizeRatesObject_idem_flat fields (by unfold isFlatFields; rw [hrt])
  | num n => rfl
  | str s => rfl
  | bool b => rfl
  | null => rfl
  | undefined => rfl

/-- C5 (amended): on a flat table, normalizeRatesObject merges the Euro alias
only when the canonical key is null or absent: if EUR is already non-null the
table is returned unchanged, so an alias key EURO present alongside it
survives with its own value; if EUR is null/absent and EURO non-null, the
EURO value is written to EUR and the EURO key removed.  Keys are not
otherwise rewritten (no uppercasing, trimming, or alias resolution of other
spellings). -/
theorem normalizeRates_alias_merge (fields : List (String × JSVal))
    (hflat : isFlatFields fields = true) :
    (isNullish (jsGetMember (.obj fields) "EUR") = false →
        normalizeRatesObject (.obj fields) = .obj fields)
    ∧ (isNullish (jsGetMember (.obj fields) "EUR") = true →
        isNullish (jsGetMember (.obj fields) "EURO") = false →
        normalizeRatesObject (.obj fields)
          = .obj (deleteField
              (setField fields "EUR" (jsGetMember (.obj fields) "EURO")) "EURO")) := by
  constructor
  · intro hEUR
    rw [normalizeRatesObject_flat fields hflat, mergeEuroAlias_of_EUR fields hEUR]
  · intro hEUR hEURO
    rw [normalizeRatesObject_flat fields hflat, mergeEuroAlias, if_pos]
    exact ⟨by simp [hEURO], hEUR⟩

/-- Witness for C5 (amended): with both spellings present the table is
unchanged; with only the legacy EURO spelling present its value moves to EUR
and the alias key disappears. -/
theorem normalizeRates_alias_merge_witness :
    normalizeRatesObject
        (.obj [("EUR", .num (.fin (7 / 10))), ("EURO", .num (.fin (9 / 10)))])
      = .obj [("EUR", .num (.fin (7 / 10))), ("EURO", .num (.fin (9 / 10)))]
    ∧ normalizeRatesObject (.obj [("EURO", .num (.fin (9 / 10))), ("USD", .num (.fin 1))])
      = .obj [("USD", .num (.fin 1)), ("EUR", .num (.fin (9 / 10)))] := by
  constructor
  · exact (normalizeRates_alias_merge _ (by decide)).1 (by decide)
  · have h := (normalizeRates_alias_merge
        [("EURO", .num (.fin (9 / 10))), ("USD", .num (.fin 1))] (by decide)).2
        (by decide) (by decide)
    exact h.trans rfl

/-- Counterexample to C5 as stated: a flat table holding both Euro spellings
with different values is returned unchanged by normalizeRatesObject, so the
alias key EURO is still present in the output (the claim says it must be
absent). -/
theorem normalizeRates_alias_counterexample :
    normalizeRatesObject
        (.obj [("EUR", .num (.fin (7 / 10))), ("EURO", .num (.fin (9 / 10)))])
      = .obj [("EUR", .num (.fin (7 / 10))), ("EURO", .num (.fin (9 / 10)))]
    ∧ lookupField [("EUR", JSVal.num (.fin (7 / 10))), ("EURO", .num (.fin (9 / 10)))]
        "EURO" = some (.num (.fin (9 / 10))) := ⟨rfl, rfl⟩

/-!
Evaluation facts about convert.
-/

theorem convRate1_fin_truthy {rates : JSVal} {code : String} {r : ℚ}
    (h : convRate1 rates code = some (.fin r)) : truthy rates = true := by
  cases rates with
  | obj fields => rfl
  | num n =>
      simp [convRate1, jsGetMember, flatGet, isNullish] at h
  | str s =>
      simp [convRate1, jsGetMember, flatGet, isNullish] at h
  | bool b =>
      simp [convRate1, jsGetMember, flatGet, isNullish] at h
  | null =>
      simp [convRate1, jsGetMember, flatGet, isNullish] at h
  | undefined =>
      simp [convRate1, jsGetMember, flatGet, isNullish] at h

theorem convert_eval {rates fromV toV : JSVal} {rF rT : ℚ} (q : ℚ)
    (hF : convRate1 rates (normalizeCurrency fromV) = some (.fin rF))
    (hT : convRate1 rates (normalizeCurrency toV) = some (.fin rT))
    (h0 : rF ≠ 0) :
    convert (.fin q) fromV toV rates = some (.fin (roundQ (q * (rT / rF)))) := by
  have htr := convRate1_fin_truthy hF
  simp [convert, htr, hF, hT, JSNum.isFinite, JSNum.div, h0, JSNum.mul, JSNum.roundTwo]

/-- C1: for a finite amount and a rate table (flat, or wrapped with its
declared base counting as rate 1) in which the normalized from-code and
to-code both look up to stored finite factors (the from-factor nonzero so the
ratio is meaningful), convert returns amount * (r(to) / r(from)) rounded to
two decimal places after the multiplication. -/
theorem convert_cross_rate_formula (q rF rT : ℚ) (fromV toV rates : JSVal)
    (hF : convRate1 rates (normalizeCurrency fromV) = some (.fin rF))
    (hT : convRate1 rates (normalizeCurrency toV) = some (.fin rT))
    (h0 : rF ≠ 0) :
    convert (.fin q) fromV toV rates = some (.fin (roundQ (q * (rT / rF)))) :=
  convert_eval q hF hT h0

/-- Witness for C1: on the wrapped table base USD with GBP 1.8 and EUR 0.7,
converting 10 EUR to GBP yields 10 * (1.8 / 0.7) rounded to two decimals,
which is 25.71. -/
theorem convert_cross_rate_formula_witness :
    convert (.fin 10) (.str "EUR") (.str "GBP")
        (.obj [("base", .str "USD"),
               ("rates", .obj [("GBP", .num (.fin (9 / 5))),
                               ("EUR", .num (.fin (7 / 10)))])])
      = some (.fin (roundQ (10 * ((9 / 5 : ℚ) / (7 / 10)))))
    ∧ roundQ (10 * ((9 / 5 : ℚ) / (7 / 10))) = 2571 / 100 := by
  constructor
  · exact convert_cross_rate_formula 10 (7 / 10) (9 / 5) _ _ _
      (by rfl) (by rfl) (by norm_num)
  · norm_num [roundQ, jsRound, epsQ]

/-- C2 (amended): when the from- and to-code normalize to the same canonical
code and that code looks up to a stored finite nonzero factor, convert does
not return the amount exactly: it returns the amount rounded to two decimal
places (the code has no same-code short-circuit, so the rounding step runs
even in the identity case). -/
theorem convert_self_rounds (q r : ℚ) (A rates : JSVal)
    (h : convRate1 rates (normalizeCurrency A) = some (.fin r)) (h0 : r ≠ 0) :
    convert (.fin q) A A rates = some (.fin (roundQ q)) := by
  have hb := convert_eval q h h h0
  rwa [div_self h0, mul_one] at hb

/-- Witness for C2 (amended): converting 10.123 USD to USD on the flat table
USD to 1 returns the rounded amount. -/
theorem convert_self_rounds_witness :
    convert (.fin (10123 / 1000)) (.str "USD") (.str "USD")
        (.obj [("USD", .num (.fin 1))]) = some (.fin (roundQ (10123 / 1000))) :=
  convert_self_rounds (10123 / 1000) 1 _ _ (by rfl) one_ne_zero

/-- Counterexample to C2 as stated: converting 10.123 USD to USD on the flat
table USD to 1 yields 10.12, not the exact amount 10.123, so the identity law
is not exact for amounts with more than two decimal places. -/
theorem convert_identity_counterexample :
    convert (.fin (10123 / 1000)) (.str "USD") (.str "USD")
        (.obj [("USD", .num (.fin 1))]) = some (.fin (253 / 25))
    ∧ (10123 / 1000 : ℚ) ≠ 253 / 25 := by
  constructor
  · have h := @convert_eval (.obj [("USD", .num (.fin 1))])
        (.str "USD") (.str "USD") 1 1
        (10123 / 1000) (by rfl) (by rfl) one_ne_zero
    rw [h]
    norm_num [roundQ, jsRound, epsQ]
  · norm_num

/-- C3 (amended): when the normalized from-code or to-code fails to look up
to a finite number in a rate table (entry missing, or its value coercing to
NaN or an infinity), convert does not surface an error: it returns the
amount unchanged, the same identity fallback observable as the no-table
case.  Factors that are zero or negative are finite and are not rejected at
all. -/
theorem convert_missing_entry_fallback (x : ℚ) (fromV toV rates : JSVal) (rF rT : JSNum)
    (hF : convRate1 rates (normalizeCurrency fromV) = some rF)
    (hT : convRate1 rates (normalizeCurrency toV) = some rT)
    (hbad : rF.isFinite = false ∨ rT.isFinite = false) :
    convert (.fin x) fromV toV rates = some (.fin x) := by
  by_cases htr : truthy rates
  · rcases hbad with hb | hb <;> simp [convert, htr, hF, hT, hb]
  · simp [convert, htr]

/-- Witness for C3 (amended): ILS has no entry in the flat table with only
EUR, and converting 5 ILS to EUR returns 5 unchanged. -/
theorem convert_missing_entry_fallback_witness :
    convert (.fin 5) (.str "ILS") (.str "EUR")
        (.obj [("EUR", .num (.fin (7 / 10)))]) = some (.fin 5) :=
  convert_missing_entry_fallback 5 (.str "ILS") (.str "EUR")
    (.obj [("EUR", .num (.fin (7 / 10)))]) .nan (.fin (7 / 10))
    (by rfl) (by rfl) (Or.inl rfl)

/-- Counterexample to C3 as stated: GBP is missing from the non-null flat
table with only EUR, yet convert returns the 10 unconverted (a successful
result equal to the amount) instead of surfacing an error. -/
theorem convert_missing_entry_counterexample :
    convert (.fin 10) (.str "GBP") (.str "EUR")
        (.obj [("EUR", .num (.fin (7 / 10)))]) = some (.fin 10) := by rfl

theorem convRate1_flat (l : List (String × JSVal)) (code : String)
    (hflat : isFlatFields l = true) :
    convRate1 (.obj l) code = some (flatGet (.obj l) code) := by
  cases hrt : lookupField l "rates" with
  | none => simp [convRate1, jsGetMember, hrt]
  | some v =>
      cases v with
      | obj rf =>
          exfalso
          unfold isFlatFields at hflat
          rw [hrt] at hflat
          simp at hflat
      | num n => simp [convRate1, jsGetMember, hrt]
      | str s => simp [convRate1, jsGetMember, hrt]
      | bool b => simp [convRate1, jsGetMember, hrt]
      | null => simp [convRate1, jsGetMember, hrt]
      | undefined => simp [convRate1, jsGetMember, hrt]

/-- C10: on a flat table that stores the legacy key EURO but whose EUR entry
is null or absent, the conversion lookup of the canonical code EUR resolves
to the value stored under EURO, so converting from the Euro succeeds with
the cross-rate formula instead of taking the missing-entry branch. -/
theorem convert_flat_euro_alias (l : List (String × JSVal)) (x rE rT : ℚ) (toV : JSVal)
    (hflat : isFlatFields l = true)
    (hEUR : isNullish (jsGetMember (.obj l) "EUR") = true)
    (hEURO : isNullish (jsGetMember (.obj l) "EURO") = false)
    (hval : toNumber (jsGetMember (.obj l) "EURO") = .fin rE)
    (h0 : rE ≠ 0)
    (hto : flatGet (.obj l) (normalizeCurrency toV) = .fin rT) :
    flatGet (.obj l) "EUR" = .fin rE
    ∧ convert (.fin x) (.str "EUR") toV (.obj l)
        = some (.fin (roundQ (x * (rT / rE)))) := by
  have hget : flatGet (.obj l) "EUR" = .fin rE := by
    have h2 : ("EUR" : String) = "EUR"
        ∧ ¬ isNullish (jsGetMember (.obj l) "EURO") = true := ⟨rfl, by simp [hEURO]⟩
    unfold flatGet
    rw [if_neg (not_not_intro hEUR), if_pos h2]
    exact hval
  refine ⟨hget, ?_⟩
  have hF : convRate1 (.obj l) (normalizeCurrency (.str "EUR")) = some (.fin rE) := by
    rw [convRate1_flat l _ hflat]
    exact congrArg some hget
  have hT : convRate1 (.obj l) (normalizeCurrency toV) = some (.fin rT) := by
    rw [convRate1_flat l _ hflat]
    exact congrArg some hto
  exact convert_eval x hF hT h0

/-- Witness for C10: on the flat table with only the legacy EURO key (0.7)
and USD (1), the EUR lookup resolves to 0.7 and converting 10 EUR to USD
succeeds with the cross-rate formula. -/
theorem convert_flat_euro_alias_witness :
    flatGet (.obj [("EURO", .num (.fin (7 / 10))), ("USD", .num (.fin 1))]) "EUR"
      = .fin (7 / 10)
    ∧ convert (.fin 10) (.str "EUR") (.str "USD")
        (.obj [("EURO", .num (.fin (7 / 10))), ("USD", .num (.fin 1))])
      = some (.fin (roundQ (10 * (1 / (7 / 10))))) :=
  convert_flat_euro_alias [("EURO", .num (.fin (7 / 10))), ("USD", .num (.fin 1))]
    10 (7 / 10) 1 (.str "USD") (by rfl) (by rfl) (by rfl) (by rfl) (by norm_num) (by rfl)

/-- C4 (amended): addCost fails with the validation error exactly when the
coerced sum is not a finite number, so NaN and the string abc are rejected;
a finite non-positive sum is not rejected: 0 and -5 are accepted and the
record is persisted. -/
theorem addCost_validation :
    (∀ cost : JSVal, (toNumber (jsGetMember cost "sum")).isFinite = false →
        addCost cost = .error "sum must be a number")
    ∧ addCost (.obj [("sum", .num (.fin 0))])
        = .ok ⟨.fin 0, "USD", "General", ""⟩
    ∧ addCost (.obj [("sum", .num (.fin (-5)))])
        = .ok ⟨.fin (-5), "USD", "General", ""⟩ := by
  refine ⟨fun cost h => ?_, rfl, rfl⟩
  simp [addCost, h]

/-- Witness for C4 (amended): the two non-finite sample sums are rejected
with the validation error. -/
theorem addCost_validation_witness :
    addCost (.obj [("sum", .str "abc")]) = .error "sum must be a number"
    ∧ addCost (.obj [("sum", .num .nan)]) = .error "sum must be a number" :=
  ⟨addCost_validation.1 _ (by rfl), addCost_validation.1 _ (by rfl)⟩

/-- Counterexample to C4 as stated: sum 0 and sum -5 are not rejected; both
calls succeed and persist a record (the resolved confirmation is returned). -/
theorem addCost_accepts_nonpositive_counterexample :
    addCost (.obj [("sum", .num (.fin 0))]) = .ok ⟨.fin 0, "USD", "General", ""⟩
    ∧ addCost (.obj [("sum", .num (.fin (-5)))])
        = .ok ⟨.fin (-5), "USD", "General", ""⟩ := ⟨rfl, rfl⟩

theorem foldl_convertOrRaw_null (cur : String) (items : List CostRec) (a : JSNum) :
    items.foldl
      (fun (acc : Option JSNum) it =>
        acc.bind fun x => (convertOrRaw .null cur it).map fun c => x.add c)
      (some a)
    = some (items.foldl (fun x it => x.add it.sum) a) := by
  induction items generalizing a with
  | nil => rfl
  | cons hd tl ih =>
      have ih2 := ih (a.add hd.sum)
      simpa [List.foldl, convertOrRaw, truthy] using ih2

/-- C8: when no rate snapshot was ever stored (ensureRates yields null),
getReport does not fail: every matched record contributes its raw sum
(identity fallback), and in particular a period holding exactly one 50-USD
entry reported in EUR totals to the pair EUR, 50. -/
theorem getReport_identity_when_no_rates :
    (∀ (y m : Int) (c : JSVal) (recs : List CostRec),
        getReportTotal y m c recs .null
          = some (normalizeCurrency (jsOr c (.str "USD")),
              JSNum.roundHund ((recs.filter fun r => r.year == y && r.month == m).foldl
                (fun a r => a.add r.sum) (.fin 0))))
    ∧ ∀ (y m : Int),
        getReportTotal y m (.str "EUR") [⟨.fin 50, .str "USD", y, m⟩] .null
          = some ("EUR", .fin 50) := by
  have main : ∀ (y m : Int) (c : JSVal) (recs : List CostRec),
      getReportTotal y m c recs .null
        = some (normalizeCurrency (jsOr c (.str "USD")),
            JSNum.roundHund ((recs.filter fun r => r.year == y && r.month == m).foldl
              (fun a r => a.add r.sum) (.fin 0))) := by
    intro y m c recs
    simp only [getReportTotal]
    rw [foldl_convertOrRaw_null]
    rfl
  refine ⟨main, fun y m => ?_⟩
  rw [main]
  have hfil : ([⟨.fin 50, .str "USD", y, m⟩] : List CostRec).filter
      (fun r => r.year == y && r.month == m) = [⟨.fin 50, .str "USD", y, m⟩] := by
    simp [List.filter]
  rw [hfil]
  have hsum : ([⟨(.fin 50 : JSNum), .str "USD", y, m⟩] : List CostRec).foldl
      (fun (a : JSNum) (r : CostRec) => a.add r.sum) (.fin 0) = .fin 50 := by
    simp [List.foldl, JSNum.add]
  rw [hsum]
  have hround : JSNum.roundHund (.fin 50) = .fin 50 := by
    simp only [JSNum.roundHund, roundQ0, jsRound]
    norm_num
  rw [hround]
  rfl

/-- C9 (amended): the module setRates performs no validation at all - it
succeeds on every input, storing the normalized table (even for null); the
vanilla-test setRates rejects exactly the falsy or non-object inputs with
the error, and also stores any object without validating its entry values. -/
theorem setRates_validation :
    (∀ r : JSVal, setRates r = .ok (normalizeRatesObject r))
    ∧ (∀ fields : List (String × JSVal),
        setRatesVanilla (.obj fields) = .ok (normalizeRatesObject (.obj fields)))
    ∧ setRatesVanilla .null = .error "rates must be an object"
    ∧ setRatesVanilla (.str "USD") = .error "rates must be an object" :=
  ⟨fun _ => rfl, fun _ => rfl, rfl, rfl⟩

/-- Counterexample to C9 as stated: the module setRates succeeds on null
(not a table), and the vanilla setRates succeeds on a table whose only value
is -1, which is not a finite positive number - neither failure the claim
requires occurs. -/
theorem setRates_no_validation_counterexample :
    setRates .null = .ok .null
    ∧ setRatesVanilla (.obj [("USD", .num (.fin (-1)))])
        = .ok (.obj [("USD", .num (.fin (-1)))]) := ⟨rfl, rfl⟩

theorem roundQ_err (q : ℚ) : |roundQ q - q| ≤ 1 / 200 + epsQ := by
  have heps : (0 : ℚ) ≤ epsQ := by norm_num [epsQ]
  have h1 : ((⌊(q + epsQ) * 100 + 1 / 2⌋ : ℤ) : ℚ) ≤ (q + epsQ) * 100 + 1 / 2 :=
    Int.floor_le _
  have h2 : (q + epsQ) * 100 + 1 / 2 - 1 < ((⌊(q + epsQ) * 100 + 1 / 2⌋ : ℤ) : ℚ) :=
    Int.sub_one_lt_floor _
  unfold roundQ jsRound
  rw [abs_le]
  constructor <;> linarith

/-- C7 (amended): for positive stored factors the round trip
convert(convert(x, A, B, t), B, A, t) lands within
(1/200 + Number.EPSILON) * (1 + r(A)/r(B)) of x - the per-conversion
half-cent rounding error is scaled back up by r(A)/r(B), so the fixed 0.01
tolerance of the claim holds only when that ratio is small, not for all
tables. -/
theorem convert_round_trip_bound (x rA rB : ℚ) (A B rates : JSVal)
    (hA : convRate1 rates (normalizeCurrency A) = some (.fin rA))
    (hB : convRate1 rates (normalizeCurrency B) = some (.fin rB))
    (hApos : 0 < rA) (hBpos : 0 < rB) :
    convert (.fin x) A B rates = some (.fin (roundQ (x * (rB / rA))))
    ∧ convert (.fin (roundQ (x * (rB / rA)))) B A rates
        = some (.fin (roundQ (roundQ (x * (rB / rA)) * (rA / rB))))
    ∧ |roundQ (roundQ (x * (rB / rA)) * (rA / rB)) - x|
        ≤ (1 / 200 + epsQ) * (1 + rA / rB) := by
  have hA0 : rA ≠ 0 := ne_of_gt hApos
  have hB0 : rB ≠ 0 := ne_of_gt hBpos
  refine ⟨convert_eval x hA hB hA0, convert_eval _ hB hA hB0, ?_⟩
  set u := x * (rB / rA) with hu
  set y := roundQ u with hy
  set v := y * (rA / rB) with hv
  have hratio : 0 < rA / rB := div_pos hApos hBpos
  have hux : u * (rA / rB) = x := by
    rw [hu]
    field_simp
  have h1 : |roundQ v - v| ≤ 1 / 200 + epsQ := roundQ_err v
  have h2 : |y - u| ≤ 1 / 200 + epsQ := roundQ_err u
  have h3 : |v - x| ≤ (1 / 200 + epsQ) * (rA / rB) := by
    have hvx : v - x = (y - u) * (rA / rB) := by
      rw [hv, ← hux]
      ring
    rw [hvx, abs_mul, abs_of_pos hratio]
    exact mul_le_mul_of_nonneg_right h2 (le_of_lt hratio)
  calc |roundQ v - x|
      = |(roundQ v - v) + (v - x)| := by
        rw [show roundQ v - x = (roundQ v - v) + (v - x) by ring]
    _ ≤ |roundQ v - v| + |v - x| := abs_add _ _
    _ ≤ (1 / 200 + epsQ) + (1 / 200 + epsQ) * (rA / rB) := add_le_add h1 h3
    _ = (1 / 200 + epsQ) * (1 + rA / rB) := by ring

/-- Witness for C7 (amended): a GBP-USD round trip of 10 on the flat table
USD 1, GBP 1.8 satisfies the scaled bound. -/
theorem convert_round_trip_bound_witness :
    convert (.fin 10) (.str "GBP") (.str "USD")
        (.obj [("USD", .num (.fin 1)), ("GBP", .num (.fin (9 / 5)))])
      = some (.fin (roundQ (10 * (1 / (9 / 5)))))
    ∧ convert (.fin (roundQ (10 * (1 / (9 / 5))))) (.str "USD") (.str "GBP")
        (.obj [("USD", .num (.fin 1)), ("GBP", .num (.fin (9 / 5)))])
      = some (.fin (roundQ (roundQ (10 * (1 / (9 / 5))) * ((9 / 5) / 1))))
    ∧ |roundQ (roundQ (10 * (1 / (9 / 5))) * ((9 / 5) / 1)) - 10|
        ≤ (1 / 200 + epsQ) * (1 + (9 / 5) / 1) :=
  convert_round_trip_bound 10 (9 / 5) 1 (.str "GBP") (.str "USD")
    (.obj [("USD", .num (.fin 1)), ("GBP", .num (.fin (9 / 5)))])
    (by rfl) (by rfl) (by norm_num) one_pos

/-- Counterexample to C7 as stated: on the flat table USD 1, JPY 150,
converting 1 JPY to USD gives 0.01, converting back gives 1.50, and the
round-trip error 0.50 exceeds the claimed 0.01 tolerance. -/
theorem convert_round_trip_counterexample :
    convert (.fin 1) (.str "JPY") (.str "USD")
        (.obj [("USD", .num (.fin 1)), ("JPY", .num (.fin 150))])
      = some (.fin (1 / 100))
    ∧ convert (.fin (1 / 100)) (.str "USD") (.str "JPY")
        (.obj [("USD", .num (.fin 1)), ("JPY", .num (.fin 150))])
      = some (.fin (3 / 2))
    ∧ ¬ (|(3 / 2 : ℚ) - 1| ≤ 1 / 100) := by
  refine ⟨?_, ?_, ?_⟩
  · have h := @convert_eval
        (.obj [("USD", .num (.fin 1)), ("JPY", .num (.fin 150))])
        (.str "JPY") (.str "USD") 150 1
        1 (by rfl) (by rfl) (by norm_num)
    rw [h]
    norm_num [roundQ, jsRound, epsQ]
  · have h := @convert_eval
        (.obj [("USD", .num (.fin 1)), ("JPY", .num (.fin 150))])
        (.str "USD") (.str "JPY") 1 150
        (1 / 100) (by rfl) (by rfl) one_ne_zero
    rw [h]
    norm_num [roundQ, jsRound, epsQ]
  · rw [show (3 / 2 : ℚ) - 1 = 1 / 2 by norm_num,
        abs_of_pos (by norm_num : (0 : ℚ) < 1 / 2)]
    norm_num
